import Mathlib

/-!
Verification of the core of the `cloudinary-search` repository against its
specification.

Two components are modeled, following the source:

* the OCR tag extractor `generateOCRTags` (src/api/upload.js, lines 280-338);
* the cached folder lister `getFoldersFromCloudinary` (src/api/folders.js,
  cached variant, lines 149-245), modeled as a state-passing function over an
  explicit cache state, an environment record, and an upstream-API oracle.

Strings are modeled as Lean `String` / `List Char` (code points; the inputs the
repository handles are ASCII, where this agrees with JavaScript's UTF-16 code
units). JavaScript's `localeCompare` is modeled as code-point lexicographic
comparison. JavaScript `Set` iteration order (insertion order, first occurrence
kept) is modeled explicitly. `Date.now()` is modeled as a `Nat` parameter.
-/

namespace CloudinarySearch

/-! ## OCR tag extractor (src/api/upload.js:280-338) -/

/-- Character class of the JavaScript regex `\s` (the ASCII part plus no-break
space), used by the whitespace handling in `generateOCRTags`. -/
def isSpaceJS (c : Char) : Bool :=
  c = ' ' || c = '\t' || c = '\n' || c = '\r' || c = '\x0b' || c = '\x0c' || c = ' '

/-- Character class `[a-zA-Z]`. -/
def isLetterAZ (c : Char) : Bool :=
  ('a' ≤ c && c ≤ 'z') || ('A' ≤ c && c ≤ 'Z')

/-- Lowercasing used to model JavaScript `toLowerCase()`; the tags the
repository compares are ASCII, where `Char.toLower` agrees with it. -/
def lowerList (l : List Char) : List Char := l.map Char.toLower

def collapseRunsAux (p : Char → Bool) : Bool → List Char → List Char
  | _, [] => []
  | inRun, c :: rest =>
    if p c then
      if inRun then collapseRunsAux p true rest
      else ' ' :: collapseRunsAux p true rest
    else c :: collapseRunsAux p false rest

/-- Replacement of every maximal run of characters satisfying `p` by a single
space: models the JS replacements `.replace(/[\r\n]+/g, ' ')` and
`.replace(/\s+/g, ' ')`. -/
def collapseRuns (p : Char → Bool) (l : List Char) : List Char :=
  collapseRunsAux p false l

def replaceSubFuel (pat rep : List Char) : Nat → List Char → List Char
  | _, [] => []
  | 0, l => l
  | fuel+1, c :: rest =>
    if pat ≠ [] ∧ pat.isPrefixOf (c :: rest) then
      rep ++ replaceSubFuel pat rep fuel ((c :: rest).drop pat.length)
    else
      c :: replaceSubFuel pat rep fuel rest

/-- Replacement of each non-overlapping occurrence of `pat` by `rep`, scanning
left to right: models JS `String.prototype.replace` with a global literal
pattern. The fuel (the list length) only forces structural termination; each
step consumes at least one character, so it is never exhausted. -/
def replaceSub (pat rep l : List Char) : List Char :=
  replaceSubFuel pat rep l.length l

/-- Model of JS `String.prototype.trim`. -/
def trimChars (l : List Char) : List Char :=
  ((l.dropWhile isSpaceJS).reverse.dropWhile isSpaceJS).reverse

/-- Model of JS `String.prototype.split(sep)` for a one-character separator. -/
def splitOnChar (sep : Char) : List Char → List (List Char)
  | [] => [[]]
  | c :: rest =>
    match splitOnChar sep rest with
    | [] => [[]]
    | g :: gs => if c = sep then [] :: g :: gs else (c :: g) :: gs

/-- The preprocessing chain of `generateOCRTags` (src/api/upload.js:286-294):
remove Sigma symbols, collapse newline runs to spaces, replace the literal
two-character escapes `\n` and `\t` by spaces, drop `ocr_` markers, collapse
whitespace runs, and trim. -/
def preprocessOCR (s : List Char) : List Char :=
  let l1 := s.filter (fun c => !(c = 'Σ' || c = 'σ'))
  let l2 := collapseRuns (fun c => c = '\r' || c = '\n') l1
  let l3 := replaceSub ['\\', 'n'] [' '] l2
  let l4 := replaceSub ['o', 'c', 'r', '_'] [] l3
  let l5 := replaceSub ['\\', 't'] [' '] l4
  trimChars (collapseRuns isSpaceJS l5)

/-- Index of the first `(` that has some `)` after it, if any: the position at
which the JS regex `\s*\(.*\)\s*` anchors its (unique) match. -/
def firstOpenWithClose : List Char → Option Nat
  | [] => none
  | c :: rest =>
    if c = '(' && rest.contains ')' then some 0
    else (firstOpenWithClose rest).map (· + 1)

/-- Index of the last `)` in the list, if any. -/
def lastCloseIdx (l : List Char) : Option Nat :=
  match l.reverse.findIdx? (fun c => c = ')') with
  | none => none
  | some k => some (l.length - 1 - k)

/-- Model of `cleaned.replace(/\s*\(.*\)\s*/g, '')` (src/api/upload.js:304).
The greedy `.*` makes the single effective match span from the first `(`
having a later `)` to the last `)`, together with the whitespace runs directly
around them. `.` is modeled as matching any character: the preprocessing has
already removed every newline, which is the only thing `.` excludes there. -/
def stripParens (l : List Char) : List Char :=
  match firstOpenWithClose l with
  | none => l
  | some i =>
    match lastCloseIdx l with
    | none => l
    | some j =>
      let pre := ((l.take i).reverse.dropWhile isSpaceJS).reverse
      let post := (l.drop (j+1)).dropWhile isSpaceJS
      pre ++ post

/-- One alternative of the row-label regex: if `l` starts (case-insensitively)
with the word `w`, then at least one whitespace character, then `Row:`
(case-insensitively), return the rest with its leading whitespace dropped. -/
def tryRowLabel (w : List Char) (l : List Char) : Option (List Char) :=
  if lowerList (l.take w.length) = w then
    let r1 := l.drop w.length
    let ws := r1.takeWhile isSpaceJS
    if ws = [] then none
    else
      let r2 := r1.drop ws.length
      if lowerList (r2.take 4) = ['r', 'o', 'w', ':'] then
        some ((r2.drop 4).dropWhile isSpaceJS)
      else none
  else none

/-- Model of `cleaned.replace(/^(Front|Second|Third|Middle)\s+Row:\s*/i, '')`
(src/api/upload.js:307). -/
def stripRowLabel (l : List Char) : List Char :=
  match tryRowLabel ['f', 'r', 'o', 'n', 't'] l with
  | some r => r
  | none =>
  match tryRowLabel ['s', 'e', 'c', 'o', 'n', 'd'] l with
  | some r => r
  | none =>
  match tryRowLabel ['t', 'h', 'i', 'r', 'd'] l with
  | some r => r
  | none =>
  match tryRowLabel ['m', 'i', 'd', 'd', 'l', 'e'] l with
  | some r => r
  | none => l

/-- Characters kept by the trailing cleanup `[^a-zA-Z\s\-\.\']+$`: letters,
whitespace, hyphen, period, apostrophe. -/
def isNameChar (c : Char) : Bool :=
  isLetterAZ c || isSpaceJS c || c = '-' || c = '.' || c = '\''

/-- Model of `cleaned.replace(/[^a-zA-Z\s\-\.\']+$/g, '')`
(src/api/upload.js:310). -/
def stripTrailingNonName (l : List Char) : List Char :=
  (l.reverse.dropWhile (fun c => !isNameChar c)).reverse

/-- The per-segment cleanup of `generateOCRTags` (src/api/upload.js:299-313):
trim, strip parenthesized annotations, strip a leading row label, strip
trailing non-name characters. -/
def cleanSegment (item : List Char) : List Char :=
  let c1 := trimChars item
  let c2 := trimChars (stripParens c1)
  let c3 := trimChars (stripRowLabel c2)
  trimChars (stripTrailingNonName c3)

/-- The stoplist `technicalTerms` (src/api/upload.js:323). -/
def technicalTerms : List (List Char) :=
  ["sigma", "back", "row", "front", "second", "third", "middle", "side",
    "group"].map String.toList

/-- The filter predicate of `generateOCRTags` (src/api/upload.js:314-330):
keep a segment iff it has length at least 2, contains a letter, is not a
technical term, and is not a short single word. -/
def keepTag (item : List Char) : Bool :=
  if item.length < 2 then false
  else if !item.any isLetterAZ then false
  else if technicalTerms.contains (lowerList item) then false
  else if !item.contains ' ' && item.length < 3 then false
  else true

/-- The ordered list of surviving candidates before deduplication: split the
preprocessed text on commas, clean each segment, filter, and truncate to 30
(src/api/upload.js:296-331, the local variable `tags`). -/
def ocrSegmentTags (ocrText : List Char) : List (List Char) :=
  (((splitOnChar ',' (preprocessOCR ocrText)).map cleanSegment).filter
    keepTag).take 30

def setDedupAux (seen : List (List Char)) : List (List Char) → List (List Char)
  | [] => []
  | x :: xs =>
    if x ∈ seen then setDedupAux seen xs else x :: setDedupAux (x :: seen) xs

/-- Model of `Array.from(new Set(l))`: a JS `Set` iterates in insertion order
and keeps the first occurrence of each element. -/
def setDedup (l : List (List Char)) : List (List Char) :=
  setDedupAux [] l

/-- The case-insensitive deduplication of `generateOCRTags`
(src/api/upload.js:334-335): collect the distinct lowercased tags in first
occurrence order, and map each back to the first tag with that lowercasing. -/
def dedupJS (tags : List (List Char)) : List (List Char) :=
  (setDedup (tags.map lowerList)).map
    (fun low => (tags.find? (fun t => decide (lowerList t = low))).getD [])

/-- Model of `generateOCRTags` (src/api/upload.js:280-338). -/
def generateOCRTags (ocrText : List Char) : List (List Char) :=
  if ocrText = [] then []
  else dedupJS (ocrSegmentTags ocrText)

/-- Accumulator-free characterization of `setDedupAux`: keep the head, drop
its later duplicates, recurse. Used only in proofs. -/
def setDedupF : List (List Char) → List (List Char)
  | [] => []
  | x :: xs => x :: setDedupF (xs.filter (fun y => decide (y ≠ x)))
termination_by l => l.length
decreasing_by
  simp only [List.length_cons]
  exact Nat.lt_succ_of_le (List.length_filter_le _ _)

/-- First-occurrence case-insensitive deduplication: the specification-level
description of what the `Set`-plus-`find` dance in the source computes. -/
def dedupKeepFirst : List (List Char) → List (List Char)
  | [] => []
  | t :: ts =>
    t :: dedupKeepFirst (ts.filter (fun u => decide (lowerList u ≠ lowerList t)))
termination_by l => l.length
decreasing_by
  simp only [List.length_cons]
  exact Nat.lt_succ_of_le (List.length_filter_le _ _)

/-! ## Folder lister with cache (src/api/folders.js:149-245, cached variant) -/

/-- A folder record as returned by the upstream folder API: the code only
reads its `name` field. -/
structure FolderRec where
  name : String
deriving DecidableEq

/-- An entry of the returned folder list: `{ path, displayName }`
(src/api/folders.js:224-227). -/
structure FolderEntry where
  path : String
  displayName : String
deriving DecidableEq

/-- A network call performed against the upstream API: the root-folder listing
or a subfolder listing for a given path. -/
inductive ApiCall where
  | root : ApiCall
  | sub : String → ApiCall
deriving DecidableEq

/-- The upstream API oracle. Each operation either raises (models a rejected
promise, carrying the error message) or returns its response's `folders`
field: `none` models a response whose `folders` field is absent or not an
array, `some l` a well-formed array. -/
structure Api where
  rootFolders : Except String (Option (List FolderRec))
  subFolders : String → Except String (Option (List FolderRec))

/-- Errors of the folder lister, per the spec's taxonomy: `configError` models
the `Missing Cloudinary environment variables` throw, `upstreamError` a
rethrown upstream failure. -/
inductive FolderError where
  | configError : FolderError
  | upstreamError : String → FolderError
deriving DecidableEq

/-- The three credential environment variables (`process.env.*`); `none`
models an absent variable. -/
structure Env where
  cloudName : Option String
  apiKey : Option String
  apiSecret : Option String

/-- JS truthiness of an optional string: absent and empty are falsy. -/
def truthyStr : Option String → Bool
  | none => false
  | some s => !(s = "")

/-- The credential check `!cloudName || !apiKey || !apiSecret`
(src/api/folders.js:166), as the conjunction that must hold to proceed. -/
def envOk (env : Env) : Bool :=
  truthyStr env.cloudName && truthyStr env.apiKey && truthyStr env.apiSecret

/-- The module-level cache variables `folderCache` and `cacheTimestamp`
(src/api/folders.js:150-151); `none` models `null`. -/
structure CacheState where
  folderCache : Option (List FolderEntry)
  cacheTimestamp : Option Nat
deriving DecidableEq

/-- The state at process start: both cache variables are `null`. -/
def initialCacheState : CacheState :=
  { folderCache := none, cacheTimestamp := none }

/-- The cache TTL, 24 hours in milliseconds (src/api/folders.js:152). -/
def CACHE_TTL : Nat := 24 * 60 * 60 * 1000

/-- The cache validity check
`folderCache && cacheTimestamp && (Date.now() - cacheTimestamp) < CACHE_TTL`
(src/api/folders.js:157), with JS truthiness: an array is always truthy and a
number is truthy iff nonzero. `Nat` subtraction truncates at zero where JS
would produce a negative number; both sides of that difference fall strictly
below the TTL, so the branch taken agrees. -/
def cacheHit (st : CacheState) (now : Nat) : Bool :=
  match st.folderCache, st.cacheTimestamp with
  | some _, some ts => decide (ts ≠ 0) && decide (now - ts < CACHE_TTL)
  | _, _ => false

instance {ε α : Type} [DecidableEq ε] [DecidableEq α] : DecidableEq (Except ε α) := fun x y =>
  match x, y with
  | .error a, .error b =>
    if h : a = b then isTrue (by rw [h]) else isFalse (by intro hc; cases hc; exact h rfl)
  | .ok a, .ok b =>
    if h : a = b then isTrue (by rw [h]) else isFalse (by intro hc; cases hc; exact h rfl)
  | .error _, .ok _ => isFalse (by intro hc; cases hc)
  | .ok _, .error _ => isFalse (by intro hc; cases hc)

/-- The outcome of one call to the folder lister: its returned value or error,
the cache state after the call, and the list of upstream calls performed. -/
structure CallResult where
  result : Except FolderError (List FolderEntry)
  state : CacheState
  calls : List ApiCall
deriving DecidableEq

/-- The accumulating set of folder paths (`const folders = new Set()`),
modeled as an insertion-ordered duplicate-free list. -/
abbrev FolderSet := List String

/-- Model of `folders.add(x)` on a JS `Set`. -/
def addFolder (s : FolderSet) (x : String) : FolderSet :=
  if x ∈ s then s else s ++ [x]

/-- The recursive subfolder traversal `getSubfolders` (src/api/folders.js:
194-209): fetch the subfolders of `folderPath`; on failure or a malformed
response do nothing (the error is swallowed); otherwise add each full path and
recurse into it. Returns the extended folder set together with the upstream
calls performed. The fuel bounds the recursion depth, which the spec assumes
finite; all theorems hold for every fuel. -/
def getSubfolders (api : Api) : Nat → String → FolderSet → FolderSet × List ApiCall
  | 0, _, acc => (acc, [])
  | fuel+1, folderPath, acc =>
    match api.subFolders folderPath with
    | .error _ => (acc, [ApiCall.sub folderPath])
    | .ok none => (acc, [ApiCall.sub folderPath])
    | .ok (some subs) =>
      subs.foldl
        (fun r sf =>
          let fullPath := folderPath ++ "/" ++ sf.name
          let r2 := getSubfolders api fuel fullPath (addFolder r.1 fullPath)
          (r2.1, r.2 ++ r2.2))
        (acc, [ApiCall.sub folderPath])

/-- Gathering phase on a successful root fetch (src/api/folders.js:185-215):
if the response's `folders` field is a proper array, add every root folder
name and then traverse the subfolders of each root; otherwise gather
nothing. -/
def gatherFolders (api : Api) (fuel : Nat) (rootOpt : Option (List FolderRec)) :
    FolderSet × List ApiCall :=
  match rootOpt with
  | none => ([], [])
  | some roots =>
    let withRoots := roots.foldl (fun a f => addFolder a f.name) ([] : FolderSet)
    roots.foldl
      (fun r f =>
        let r2 := getSubfolders api fuel f.name r.1
        (r2.1, r.2 ++ r2.2))
      (withRoots, ([] : List ApiCall))

/-- Lexicographic comparison of character lists, used to model the
repository's `localeCompare` comparisons on its ASCII folder names. -/
def listCharLeB : List Char → List Char → Bool
  | [], _ => true
  | _ :: _, [] => false
  | a :: as, b :: bs => if a = b then listCharLeB as bs else decide (a < b)

/-- Model of `a.localeCompare(b) ≤ 0` as code-point lexicographic order. -/
def localeLe (a b : String) : Bool := listCharLeB a.data b.data

/-- The comparator of the first sort, `.sort((a, b) => a.localeCompare(b))`
(src/api/folders.js:223). -/
def pathRel (a b : String) : Prop := localeLe a b = true

/-- The comparator of the final sort,
`.sort((a, b) => a.displayName.localeCompare(b.displayName))`
(src/api/folders.js:228). -/
def dispRel (a b : FolderEntry) : Prop := localeLe a.displayName b.displayName = true

instance : DecidableRel pathRel := fun _ _ => instDecidableEqBool _ _

instance : DecidableRel dispRel := fun _ _ => instDecidableEqBool _ _

/-- Model of `folderPath.split('/').pop() || folderPath`
(src/api/folders.js:226): the last path segment, or the whole path when that
segment is empty (JS falsy). -/
def displayNameOf (path : String) : String :=
  let last := (splitOnChar '/' path.data).getLastD []
  if last = [] then path else String.mk last

/-- The flattening of the folder set into the returned array
(src/api/folders.js:222-228): sort the paths, build `{path, displayName}`
records, and re-sort by display name. Both JS sorts are stable; insertion
sort is the stable sort with reasoning support in Mathlib. -/
def buildFolderArray (folders : FolderSet) : List FolderEntry :=
  List.insertionSort dispRel
    ((List.insertionSort pathRel folders).map
      (fun p => { path := p, displayName := displayNameOf p }))

/-- Model of one call to `getFoldersFromCloudinary`
(src/api/folders.js:155-245): return the cached list when the cache is valid;
otherwise check credentials, fetch the root folders, gather subfolders,
flatten, store the result with the current timestamp, and return it. A failed
root fetch is rethrown (through both `catch` blocks) without touching the
cache. -/
def getFoldersFromCloudinary (env : Env) (api : Api) (fuel now : Nat)
    (st : CacheState) : CallResult :=
  if cacheHit st now then
    { result := .ok (st.folderCache.getD []), state := st, calls := [] }
  else if !envOk env then
    { result := .error .configError, state := st, calls := [] }
  else
    match api.rootFolders with
    | .error msg =>
      { result := .error (.upstreamError msg), state := st, calls := [ApiCall.root] }
    | .ok rootOpt =>
      let gathered := gatherFolders api fuel rootOpt
      let folderArray := buildFolderArray gathered.1
      { result := .ok folderArray
        state := { folderCache := some folderArray, cacheTimestamp := some now }
        calls := ApiCall.root :: gathered.2 }

/-- Recognizer of root-listing calls, to count upstream fetch sequences. -/
def isRootCall : ApiCall → Bool
  | .root => true
  | .sub _ => false

/-- Number of root-listing calls (upstream fetch sequences) in a trace. -/
def rootCalls (tr : List ApiCall) : Nat := tr.countP isRootCall

/-! ## Concrete instances used by witnesses and counterexamples -/

/-- An environment with all three credentials present. -/
def exEnv : Env := { cloudName := some "cloud", apiKey := some "key", apiSecret := some "secret" }

/-- An environment with all three credentials absent. -/
def absentEnv : Env := { cloudName := none, apiKey := none, apiSecret := none }

/-- An upstream API with root folders `zebra` and `apple`, where `zebra` has
one subfolder `sub` (the folder set of the spec's sort-order example). -/
def exApi : Api :=
  { rootFolders := .ok (some [{ name := "zebra" }, { name := "apple" }])
    subFolders := fun p => if p = "zebra" then .ok (some [{ name := "sub" }]) else .ok none }

/-- An upstream API whose root-folder response has no usable `folders` array. -/
def malformedApi : Api :=
  { rootFolders := .ok none, subFolders := fun _ => .ok none }

/-- An upstream API whose root-folder fetch itself fails. -/
def failingRootApi : Api :=
  { rootFolders := .error "network down", subFolders := fun _ => .ok none }

/-- An upstream API with one root folder `a` whose subfolder fetch fails. -/
def failingSubApi : Api :=
  { rootFolders := .ok (some [{ name := "a" }])
    subFolders := fun _ => .error "boom" }

/-- A cache state holding one previously stored entry at timestamp 1. -/
def cachedState : CacheState :=
  { folderCache := some [{ path := "a", displayName := "a" }], cacheTimestamp := some 1 }


/-! ## Lemmas about the deduplication step -/

theorem setDedupAux_eq (l : List (List Char)) :
    ∀ seen, setDedupAux seen l = setDedupF (l.filter (fun y => decide (y ∉ seen))) := by
  induction l with
  | nil => intro seen; simp [setDedupAux, setDedupF]
  | cons x xs ih =>
    intro seen
    by_cases hx : x ∈ seen
    · rw [List.filter_cons, if_neg (by simp [hx])]
      simp only [setDedupAux, if_pos hx]
      exact ih seen
    · rw [List.filter_cons, if_pos (by simp [hx])]
      simp only [setDedupAux, if_neg hx]
      rw [setDedupF]
      congr 1
      rw [ih (x :: seen), List.filter_filter]
      congr 1
      apply List.filter_congr
      intro a _
      simp [List.mem_cons, not_or, Bool.decide_and, Bool.and_comm]

theorem setDedup_eq (l : List (List Char)) : setDedup l = setDedupF l := by
  rw [setDedup, setDedupAux_eq]
  congr 1
  apply List.filter_eq_self.mpr
  intro a _
  simp

theorem find_skip_filter (low lt : List Char) (hne : low ≠ lt) :
    ∀ l : List (List Char),
      l.find? (fun u => decide (lowerList u = low)) =
        (l.filter (fun u => decide (lowerList u ≠ lt))).find?
          (fun u => decide (lowerList u = low)) := by
  intro l
  induction l with
  | nil => rfl
  | cons u us ih =>
    by_cases hu : lowerList u = lt
    · rw [List.filter_cons, if_neg (by simp [hu])]
      have h1 : (decide (lowerList u = low)) = false := by
        simp [hu]
        exact Ne.symm hne
      simp only [List.find?, h1]
      exact ih
    · rw [List.filter_cons, if_pos (by simp [hu])]
      by_cases hl : lowerList u = low
      · simp [List.find?, hl]
      · simp only [List.find?, hl, decide_False,
          show (decide (lowerList u = low)) = false by simp [hl]]
        exact ih

theorem mem_of_mem_setDedupF (l : List (List Char)) :
    ∀ a, a ∈ setDedupF l → a ∈ l := by
  induction l using setDedupF.induct with
  | case1 => intro a h; simp [setDedupF] at h
  | case2 x xs ih =>
    intro a h
    simp only [setDedupF] at h
    rcases List.mem_cons.mp h with h1 | h2
    · exact h1 ▸ List.mem_cons_self _ _
    · exact List.mem_cons_of_mem _ (List.mem_of_mem_filter (ih a h2))

theorem dedupKeepFirst_sublist (l : List (List Char)) :
    List.Sublist (dedupKeepFirst l) l := by
  induction l using dedupKeepFirst.induct with
  | case1 => simp [dedupKeepFirst]
  | case2 t ts ih =>
    simp only [dedupKeepFirst]
    exact List.Sublist.cons₂ t (ih.trans (List.filter_sublist ts))

theorem mem_of_mem_dedupKeepFirst {a : List Char} {l : List (List Char)}
    (h : a ∈ dedupKeepFirst l) : a ∈ l :=
  (dedupKeepFirst_sublist l).subset h

theorem dedupKeepFirst_pairwise (l : List (List Char)) :
    List.Pairwise (fun a b => lowerList a ≠ lowerList b) (dedupKeepFirst l) := by
  induction l using dedupKeepFirst.induct with
  | case1 => simp [dedupKeepFirst]
  | case2 t ts ih =>
    simp only [dedupKeepFirst]
    refine List.Pairwise.cons ?_ ih
    intro b hb
    have hbf := List.of_mem_filter (mem_of_mem_dedupKeepFirst hb)
    simp only [decide_eq_true_eq] at hbf
    exact Ne.symm hbf

theorem dedupKeepFirst_find? (l : List (List Char)) :
    ∀ u ∈ dedupKeepFirst l,
      l.find? (fun t => decide (lowerList t = lowerList u)) = some u := by
  induction l using dedupKeepFirst.induct with
  | case1 => intro u hu; simp [dedupKeepFirst] at hu
  | case2 t ts ih =>
    intro u hu
    simp only [dedupKeepFirst] at hu
    rcases List.mem_cons.mp hu with h1 | h2
    · subst h1
      simp [List.find?]
    · have hne' : lowerList u ≠ lowerList t := by
        have := List.of_mem_filter (mem_of_mem_dedupKeepFirst h2)
        simpa using this
      have h1 : (decide (lowerList t = lowerList u)) = false := by
        simp
        exact Ne.symm hne'
      simp only [List.find?, h1]
      rw [find_skip_filter (lowerList u) (lowerList t) hne' ts]
      exact ih u h2

theorem filter_map_lower (p : List Char → Bool) (l : List (List Char)) :
    (l.map lowerList).filter p = (l.filter (fun a => p (lowerList a))).map lowerList := by
  induction l with
  | nil => rfl
  | cons x xs ih =>
    simp only [List.map_cons, List.filter_cons]
    by_cases h : p (lowerList x) = true
    · simp [h, ih]
    · simp [h, ih]

theorem dedupJS_eq_dedupKeepFirst (l : List (List Char)) :
    dedupJS l = dedupKeepFirst l := by
  induction l using dedupKeepFirst.induct with
  | case1 => simp [dedupJS, setDedup, setDedupAux, setDedupF, dedupKeepFirst]
  | case2 t ts ih =>
    have hpick_head :
        ((t :: ts).find? (fun v => decide (lowerList v = lowerList t))).getD [] = t := by
      simp [List.find?]
    have hfm := filter_map_lower (fun y => decide (y ≠ lowerList t)) ts
    rw [dedupJS, setDedup_eq]
    simp only [List.map_cons]
    rw [setDedupF, hfm]
    simp only [List.map_cons, hpick_head]
    rw [dedupKeepFirst]
    congr 1
    have hcong :
        ∀ low ∈ setDedupF ((ts.filter
            (fun a => decide (lowerList a ≠ lowerList t))).map lowerList),
          ((t :: ts).find? (fun v => decide (lowerList v = low))).getD [] =
            ((ts.filter (fun a => decide (lowerList a ≠ lowerList t))).find?
              (fun v => decide (lowerList v = low))).getD [] := by
      intro low hlow
      have hmem := mem_of_mem_setDedupF _ low hlow
      rcases List.mem_map.mp hmem with ⟨a, ha, rfl⟩
      have hane : lowerList a ≠ lowerList t := by
        have := List.of_mem_filter ha
        simpa using this
      have hhead : (decide (lowerList t = lowerList a)) = false := by
        simp
        exact Ne.symm hane
      simp only [List.find?, hhead]
      rw [find_skip_filter (lowerList a) (lowerList t) hane ts]
    rw [List.map_congr_left hcong]
    have ih' := ih
    simp only [dedupJS] at ih'
    rw [setDedup_eq] at ih'
    exact ih'

/-! ## Lemmas about the folder lister -/

theorem listCharLeB_total (a b : List Char) :
    listCharLeB a b = true ∨ listCharLeB b a = true := by
  induction a generalizing b with
  | nil => left; rfl
  | cons x xs ih =>
    cases b with
    | nil => right; rfl
    | cons y ys =>
      by_cases hxy : x = y
      · subst hxy
        simpa [listCharLeB] using ih ys
      · rcases lt_trichotomy x y with h | h | h
        · left; simp [listCharLeB, hxy, h]
        · exact absurd h hxy
        · right; simp [listCharLeB, Ne.symm hxy, h]

theorem listCharLeB_trans {a b c : List Char} (h1 : listCharLeB a b = true)
    (h2 : listCharLeB b c = true) : listCharLeB a c = true := by
  induction a generalizing b c with
  | nil => rfl
  | cons x xs ih =>
    cases b with
    | nil => simp [listCharLeB] at h1
    | cons y ys =>
      cases c with
      | nil => simp [listCharLeB] at h2
      | cons z zs =>
        by_cases hxy : x = y <;> by_cases hyz : y = z
        · subst hxy; subst hyz
          simp only [listCharLeB, if_pos rfl] at h1 h2 ⊢
          exact ih h1 h2
        · subst hxy
          simp only [listCharLeB, if_pos rfl] at h1
          simpa [listCharLeB, hyz] using h2
        · subst hyz
          simpa [listCharLeB, hxy] using h1
        · simp only [listCharLeB, if_neg hxy, decide_eq_true_eq] at h1
          simp only [listCharLeB, if_neg hyz, decide_eq_true_eq] at h2
          have hxz : x < z := lt_trans h1 h2
          simp [listCharLeB, ne_of_lt hxz, hxz]

theorem buildFolderArray_sorted (l : FolderSet) :
    List.Sorted dispRel (buildFolderArray l) := by
  haveI : IsTotal FolderEntry dispRel :=
    ⟨fun a b => listCharLeB_total a.displayName.data b.displayName.data⟩
  haveI : IsTrans FolderEntry dispRel :=
    ⟨fun _ _ _ h1 h2 => listCharLeB_trans h1 h2⟩
  exact List.sorted_insertionSort dispRel _

theorem rootCalls_append (t1 t2 : List ApiCall) :
    rootCalls (t1 ++ t2) = rootCalls t1 + rootCalls t2 :=
  List.countP_append _ _ _

theorem rootCalls_foldl
    (g : FolderSet × List ApiCall → FolderRec → FolderSet × List ApiCall)
    (hg : ∀ r x, ∃ s, (g r x).2 = r.2 ++ s ∧ rootCalls s = 0) :
    ∀ (subs : List FolderRec) (r : FolderSet × List ApiCall),
      rootCalls ((subs.foldl g r).2) = rootCalls r.2 := by
  intro subs
  induction subs with
  | nil => intro r; rfl
  | cons sf rest ih =>
    intro r
    rw [List.foldl_cons, ih]
    rcases hg r sf with ⟨s, hs, hs0⟩
    rw [hs, rootCalls_append, hs0]
    rfl

theorem rootCalls_getSubfolders (api : Api) :
    ∀ (fuel : Nat) (p : String) (acc : FolderSet),
      rootCalls (getSubfolders api fuel p acc).2 = 0 := by
  intro fuel
  induction fuel with
  | zero => intro p acc; rfl
  | succ fuel ih =>
    intro p acc
    simp only [getSubfolders]
    cases hapi : api.subFolders p with
    | error e => simp [rootCalls, isRootCall]
    | ok o =>
      cases o with
      | none => simp [rootCalls, isRootCall]
      | some subs =>
        rw [rootCalls_foldl _ ?_ subs (acc, [ApiCall.sub p])]
        · simp [rootCalls, isRootCall]
        · intro r x
          exact ⟨(getSubfolders api fuel (p ++ "/" ++ x.name)
            (addFolder r.1 (p ++ "/" ++ x.name))).2, rfl, ih _ _⟩

theorem rootCalls_gatherFolders (api : Api) (fuel : Nat)
    (rootOpt : Option (List FolderRec)) :
    rootCalls (gatherFolders api fuel rootOpt).2 = 0 := by
  cases rootOpt with
  | none => rfl
  | some roots =>
    simp only [gatherFolders]
    rw [rootCalls_foldl _ ?_ roots _]
    · rfl
    · intro r x
      exact ⟨(getSubfolders api fuel x.name r.1).2, rfl,
        rootCalls_getSubfolders api fuel _ _⟩

theorem getFolders_cacheHit_eq (env : Env) (api : Api) (fuel now : Nat)
    (st : CacheState) (arr : List FolderEntry) (ts : Nat)
    (hc : st.folderCache = some arr) (hts : st.cacheTimestamp = some ts)
    (h0 : ts ≠ 0) (httl : now - ts < CACHE_TTL) :
    getFoldersFromCloudinary env api fuel now st =
      { result := .ok arr, state := st, calls := [] } := by
  have hhit : cacheHit st now = true := by simp [cacheHit, hc, hts, h0, httl]
  simp [getFoldersFromCloudinary, hhit, hc]

theorem getFolders_configError_eq (env : Env) (api : Api) (fuel now : Nat)
    (st : CacheState) (hmiss : cacheHit st now = false) (henv : envOk env = false) :
    getFoldersFromCloudinary env api fuel now st =
      { result := .error .configError, state := st, calls := [] } := by
  simp [getFoldersFromCloudinary, hmiss, henv]

theorem getFolders_rootError_eq (env : Env) (api : Api) (fuel now : Nat)
    (st : CacheState) (msg : String) (hmiss : cacheHit st now = false)
    (henv : envOk env = true) (hroot : api.rootFolders = .error msg) :
    getFoldersFromCloudinary env api fuel now st =
      { result := .error (.upstreamError msg), state := st, calls := [ApiCall.root] } := by
  simp [getFoldersFromCloudinary, hmiss, henv, hroot]

theorem getFolders_fetch_eq (env : Env) (api : Api) (fuel now : Nat)
    (st : CacheState) (rootOpt : Option (List FolderRec))
    (hmiss : cacheHit st now = false) (henv : envOk env = true)
    (hroot : api.rootFolders = .ok rootOpt) :
    getFoldersFromCloudinary env api fuel now st =
      { result := .ok (buildFolderArray (gatherFolders api fuel rootOpt).1)
        state := { folderCache := some (buildFolderArray (gatherFolders api fuel rootOpt).1)
                   cacheTimestamp := some now }
        calls := ApiCall.root :: (gatherFolders api fuel rootOpt).2 } := by
  simp [getFoldersFromCloudinary, hmiss, henv, hroot]

/-! ## Claim theorems -/

/-- C1: when a cache-populating call (cache miss, credentials present, root
fetch succeeds) is followed by a second call within the TTL, the second call
returns the same sequence as the first, performs no upstream calls, leaves the
cache state unchanged, and the two calls together perform exactly one upstream
fetch sequence (exactly one root-folder listing). The positivity hypothesis on
the first timestamp reflects that timestamps written by the code come from
`Date.now()`, which is positive. -/
theorem c1_cache_idempotent (env : Env) (api : Api) (fuel now1 now2 : Nat)
    (st0 : CacheState) (rootOpt : Option (List FolderRec))
    (hmiss : cacheHit st0 now1 = false) (henv : envOk env = true)
    (hroot : api.rootFolders = .ok rootOpt) (hpos : 0 < now1)
    (httl : now2 - now1 < CACHE_TTL) :
    (getFoldersFromCloudinary env api fuel now2
        (getFoldersFromCloudinary env api fuel now1 st0).state).result =
      (getFoldersFromCloudinary env api fuel now1 st0).result ∧
    (getFoldersFromCloudinary env api fuel now2
        (getFoldersFromCloudinary env api fuel now1 st0).state).calls = [] ∧
    (getFoldersFromCloudinary env api fuel now2
        (getFoldersFromCloudinary env api fuel now1 st0).state).state =
      (getFoldersFromCloudinary env api fuel now1 st0).state ∧
    (∃ arr, (getFoldersFromCloudinary env api fuel now1 st0).result = Except.ok arr) ∧
    rootCalls ((getFoldersFromCloudinary env api fuel now1 st0).calls ++
      (getFoldersFromCloudinary env api fuel now2
        (getFoldersFromCloudinary env api fuel now1 st0).state).calls) = 1 := by
  have h1 := getFolders_fetch_eq env api fuel now1 st0 rootOpt hmiss henv hroot
  rw [h1]
  dsimp only
  have h2 := getFolders_cacheHit_eq env api fuel now2
    { folderCache := some (buildFolderArray (gatherFolders api fuel rootOpt).1)
      cacheTimestamp := some now1 }
    (buildFolderArray (gatherFolders api fuel rootOpt).1) now1 rfl rfl
    (Nat.pos_iff_ne_zero.mp hpos) httl
  rw [h2]
  refine ⟨rfl, rfl, rfl, ⟨_, rfl⟩, ?_⟩
  dsimp only
  rw [List.append_nil]
  have h0 := rootCalls_gatherFolders api fuel rootOpt
  simp [rootCalls, List.countP_cons, isRootCall] at h0 ⊢
  exact h0

/-- C2 counterexample: with credentials present and an empty cache, a root
response whose `folders` field is absent or not an array makes the lister
return a successful empty listing, not an UpstreamError. -/
theorem c2_counterexample :
    (getFoldersFromCloudinary exEnv malformedApi 3 1000 initialCacheState).result =
      Except.ok [] := by decide

/-- C2 amended: on a cache miss with credentials present, the folder lister
fails with an UpstreamError exactly when the root-folder operation itself
raises; a root response whose `folders` field is absent or not an array is
instead treated as an empty folder list and yields a successful empty
result. -/
theorem c2_amended_upstream_error (env : Env) (api : Api) (fuel now : Nat)
    (st : CacheState) (hmiss : cacheHit st now = false) (henv : envOk env = true) :
    (∀ msg, api.rootFolders = .error msg →
      (getFoldersFromCloudinary env api fuel now st).result =
        .error (.upstreamError msg)) ∧
    (api.rootFolders = .ok none →
      (getFoldersFromCloudinary env api fuel now st).result = .ok []) := by
  constructor
  · intro msg hroot
    rw [getFolders_rootError_eq env api fuel now st msg hmiss henv hroot]
  · intro hroot
    rw [getFolders_fetch_eq env api fuel now st none hmiss henv hroot]
    rfl

theorem c2_amended_witness :
    (∀ msg, failingRootApi.rootFolders = .error msg →
      (getFoldersFromCloudinary exEnv failingRootApi 3 1000 initialCacheState).result =
        .error (.upstreamError msg)) ∧
    (failingRootApi.rootFolders = .ok none →
      (getFoldersFromCloudinary exEnv failingRootApi 3 1000 initialCacheState).result =
        .ok []) :=
  c2_amended_upstream_error exEnv failingRootApi 3 1000 initialCacheState
    (by decide) (by decide)

/-- C3 counterexample: a call made while all three credentials are absent but
the cache holds a valid previously stored entry returns the cached value, not
a ConfigError: the cache check precedes the credential check. -/
theorem c3_counterexample :
    (getFoldersFromCloudinary absentEnv exApi 3 2 cachedState).result =
      Except.ok [{ path := "a", displayName := "a" }] := by decide

/-- C3 amended: every call made while some required credential is absent and
the cache does not hold a valid entry fails with a ConfigError and leaves the
state unchanged. -/
theorem c3_amended_config_error (env : Env) (api : Api) (fuel now : Nat)
    (st : CacheState) (hmiss : cacheHit st now = false)
    (habs : env.cloudName = none ∨ env.apiKey = none ∨ env.apiSecret = none) :
    (getFoldersFromCloudinary env api fuel now st).result = .error .configError ∧
    (getFoldersFromCloudinary env api fuel now st).state = st := by
  have henv : envOk env = false := by
    rcases habs with h | h | h <;> simp [envOk, h, truthyStr]
  rw [getFolders_configError_eq env api fuel now st hmiss henv]
  exact ⟨rfl, rfl⟩

theorem c3_amended_witness :
    (getFoldersFromCloudinary absentEnv exApi 3 1000 initialCacheState).result =
      Except.error FolderError.configError ∧
    (getFoldersFromCloudinary absentEnv exApi 3 1000 initialCacheState).state =
      initialCacheState :=
  c3_amended_config_error absentEnv exApi 3 1000 initialCacheState (by decide)
    (Or.inl rfl)

/-- C4: if the cache misses, the credentials are present, and the initial
root-folder fetch fails, the call fails with an UpstreamError and the cache
state is left unchanged (nothing is stored by a failing call). -/
theorem c4_root_failure_no_cache (env : Env) (api : Api) (fuel now : Nat)
    (st : CacheState) (msg : String) (hmiss : cacheHit st now = false)
    (henv : envOk env = true) (hroot : api.rootFolders = .error msg) :
    (getFoldersFromCloudinary env api fuel now st).result =
      .error (.upstreamError msg) ∧
    (getFoldersFromCloudinary env api fuel now st).state = st := by
  rw [getFolders_rootError_eq env api fuel now st msg hmiss henv hroot]
  exact ⟨rfl, rfl⟩

theorem c4_witness :
    (getFoldersFromCloudinary exEnv failingRootApi 3 1000 initialCacheState).result =
      Except.error (FolderError.upstreamError "network down") ∧
    (getFoldersFromCloudinary exEnv failingRootApi 3 1000 initialCacheState).state =
      initialCacheState :=
  c4_root_failure_no_cache exEnv failingRootApi 3 1000 initialCacheState
    "network down" (by decide) (by decide) rfl

/-- C5: the tag extractor applied to the spec's example input returns exactly
the sequence John Smith, Jane Doe, Bob, in that order. -/
theorem c5_ocr_example :
    generateOCRTags
        "John Smith (captain), Front Row: Jane Doe, Sigma, A, Bob".toList =
      ["John Smith".toList, "Jane Doe".toList, "Bob".toList] := by decide

/-- C6: for every input, the tag extractor's output is deduplicated
case-insensitively: no two output elements share a lowercasing, the output is
a subsequence of the surviving candidate list (hence in original relative
order with original casing), and every output element is literally the first
surviving candidate with its lowercasing. -/
theorem c6_ocr_dedup (s : List Char) :
    List.Pairwise (fun a b => lowerList a ≠ lowerList b) (generateOCRTags s) ∧
    List.Sublist (generateOCRTags s) (ocrSegmentTags s) ∧
    ∀ u ∈ generateOCRTags s,
      (ocrSegmentTags s).find? (fun t => decide (lowerList t = lowerList u)) =
        some u := by
  by_cases hs : s = []
  · subst hs
    refine ⟨?_, ?_, ?_⟩ <;> simp [generateOCRTags]
  · simp only [generateOCRTags, if_neg hs]
    rw [dedupJS_eq_dedupKeepFirst]
    exact ⟨dedupKeepFirst_pairwise _, dedupKeepFirst_sublist _,
      dedupKeepFirst_find? _⟩

theorem c6_witness :
    List.Pairwise (fun a b => lowerList a ≠ lowerList b)
      (generateOCRTags "Bob, BOB, Jane Doe".toList) ∧
    List.Sublist (generateOCRTags "Bob, BOB, Jane Doe".toList)
      (ocrSegmentTags "Bob, BOB, Jane Doe".toList) ∧
    ∀ u ∈ generateOCRTags "Bob, BOB, Jane Doe".toList,
      (ocrSegmentTags "Bob, BOB, Jane Doe".toList).find?
        (fun t => decide (lowerList t = lowerList u)) = some u :=
  c6_ocr_dedup ("Bob, BOB, Jane Doe".toList)

/-- C7: for every input, the tag extractor returns at most 30 tags. -/
theorem c7_ocr_bound (s : List Char) : (generateOCRTags s).length ≤ 30 := by
  by_cases hs : s = []
  · simp [generateOCRTags, hs]
  · simp only [generateOCRTags, if_neg hs]
    rw [dedupJS_eq_dedupKeepFirst]
    calc (dedupKeepFirst (ocrSegmentTags s)).length
        ≤ (ocrSegmentTags s).length := (dedupKeepFirst_sublist _).length_le
      _ ≤ 30 := by
          simp only [ocrSegmentTags]
          exact List.length_take_le _ _

/-- C8: whenever a call misses the cache and returns successfully (a fresh
fetch), the returned sequence is sorted by displayName ascending under the
locale-comparison model. -/
theorem c8_fresh_fetch_sorted (env : Env) (api : Api) (fuel now : Nat)
    (st : CacheState) (arr : List FolderEntry)
    (hmiss : cacheHit st now = false)
    (harr : (getFoldersFromCloudinary env api fuel now st).result = .ok arr) :
    List.Sorted dispRel arr := by
  cases henv : envOk env with
  | false =>
    rw [getFolders_configError_eq env api fuel now st hmiss henv] at harr
    simp at harr
  | true =>
    cases hroot : api.rootFolders with
    | error msg =>
      rw [getFolders_rootError_eq env api fuel now st msg hmiss henv hroot] at harr
      simp at harr
    | ok rootOpt =>
      rw [getFolders_fetch_eq env api fuel now st rootOpt hmiss henv hroot] at harr
      simp only [Except.ok.injEq] at harr
      rw [← harr]
      exact buildFolderArray_sorted _

theorem c8_witness :
    List.Sorted dispRel
      [{ path := "apple", displayName := "apple" },
        { path := "zebra/sub", displayName := "sub" },
        { path := "zebra", displayName := "zebra" }] :=
  c8_fresh_fetch_sorted exEnv exApi 3 1000 initialCacheState
    [{ path := "apple", displayName := "apple" },
      { path := "zebra/sub", displayName := "sub" },
      { path := "zebra", displayName := "zebra" }]
    (by decide) (by decide)

/-- C9: if the cache misses, credentials are present, the root fetch succeeds,
and some subfolder fetch fails, the call still returns successfully, and a
failing subfolder fetch leaves the gathered folder set unchanged: the failure
is swallowed, not propagated. -/
theorem c9_partial_failure (env : Env) (api : Api) (fuel now : Nat)
    (st : CacheState) (roots : List FolderRec) (badPath e : String)
    (hmiss : cacheHit st now = false) (henv : envOk env = true)
    (hroot : api.rootFolders = .ok (some roots))
    (hbad : api.subFolders badPath = .error e) :
    (∃ arr, (getFoldersFromCloudinary env api fuel now st).result = Except.ok arr) ∧
    (∀ f2 acc, (getSubfolders api f2 badPath acc).1 = acc) := by
  constructor
  · exact ⟨buildFolderArray (gatherFolders api fuel (some roots)).1, by
      rw [getFolders_fetch_eq env api fuel now st (some roots) hmiss henv hroot]⟩
  · intro f2 acc
    cases f2 with
    | zero => rfl
    | succ f => simp [getSubfolders, hbad]

theorem c9_witness :
    (∃ arr, (getFoldersFromCloudinary exEnv failingSubApi 3 1000
        initialCacheState).result = Except.ok arr) ∧
    (∀ f2 acc, (getSubfolders failingSubApi f2 "a" acc).1 = acc) :=
  c9_partial_failure exEnv failingSubApi 3 1000 initialCacheState
    [{ name := "a" }] "a" "boom" (by decide) (by decide) rfl rfl

/-- C10: at process start both cache variables are null, and every call to the
folder lister, from any state satisfying it, preserves the invariant that the
cached list is set iff the cache timestamp is set. -/
theorem c10_cache_invariant :
    (initialCacheState.folderCache.isSome ↔ initialCacheState.cacheTimestamp.isSome) ∧
    ∀ (env : Env) (api : Api) (fuel now : Nat) (st : CacheState),
      (st.folderCache.isSome ↔ st.cacheTimestamp.isSome) →
      ((getFoldersFromCloudinary env api fuel now st).state.folderCache.isSome ↔
        (getFoldersFromCloudinary env api fuel now st).state.cacheTimestamp.isSome) := by
  refine ⟨by simp [initialCacheState], ?_⟩
  intro env api fuel now st hinv
  cases hhit : cacheHit st now with
  | true => simpa [getFoldersFromCloudinary, hhit] using hinv
  | false =>
    cases henv : envOk env with
    | false =>
      rw [getFolders_configError_eq env api fuel now st hhit henv]
      exact hinv
    | true =>
      cases hroot : api.rootFolders with
      | error msg =>
        rw [getFolders_rootError_eq env api fuel now st msg hhit henv hroot]
        exact hinv
      | ok rootOpt =>
        rw [getFolders_fetch_eq env api fuel now st rootOpt hhit henv hroot]
        simp

theorem c10_witness :
    (getFoldersFromCloudinary exEnv exApi 3 1000 initialCacheState).state.folderCache.isSome ↔
      (getFoldersFromCloudinary exEnv exApi 3 1000 initialCacheState).state.cacheTimestamp.isSome :=
  c10_cache_invariant.2 exEnv exApi 3 1000 initialCacheState
    (by simp [initialCacheState])

theorem c1_witness :
    (getFoldersFromCloudinary exEnv exApi 3 2000
        (getFoldersFromCloudinary exEnv exApi 3 1000 initialCacheState).state).result =
      (getFoldersFromCloudinary exEnv exApi 3 1000 initialCacheState).result ∧
    (getFoldersFromCloudinary exEnv exApi 3 2000
        (getFoldersFromCloudinary exEnv exApi 3 1000 initialCacheState).state).calls = [] ∧
    (getFoldersFromCloudinary exEnv exApi 3 2000
        (getFoldersFromCloudinary exEnv exApi 3 1000 initialCacheState).state).state =
      (getFoldersFromCloudinary exEnv exApi 3 1000 initialCacheState).state ∧
    (∃ arr, (getFoldersFromCloudinary exEnv exApi 3 1000 initialCacheState).result =
      Except.ok arr) ∧
    rootCalls ((getFoldersFromCloudinary exEnv exApi 3 1000 initialCacheState).calls ++
      (getFoldersFromCloudinary exEnv exApi 3 2000
        (getFoldersFromCloudinary exEnv exApi 3 1000 initialCacheState).state).calls) = 1 :=
  c1_cache_idempotent exEnv exApi 3 1000 2000 initialCacheState
    (some [{ name := "zebra" }, { name := "apple" }])
    (by decide) (by decide) rfl (by decide) (by decide)

end CloudinarySearch
